import Mathlib

/-!
Verification of the license-resolution pipeline of the cc-bc catalog
repository.  The pure decision logic of the resolver scripts
(`fix-missing-licenses-accelerated`, `fix-missing-licenses-exact`,
`fix-missing-licenses-exhaustive`, `reconcile-url-health-from-reports`)
is embedded as executable Lean definitions; network fetches and HTML
regex extraction are represented by explicit oracle parameters carrying
the data the JavaScript obtains from them.
-/

namespace CcBc

/-- One insertion into a JavaScript `Set`, modelled as a duplicate-free
list kept in insertion order: an element already present is ignored,
otherwise it is appended. -/
def jsSetInsert {α : Type} [DecidableEq α] (l : List α) (x : α) : List α :=
  if x ∈ l then l else l ++ [x]

/-- `new Set(list)` in JavaScript: deduplicate, keeping the first
occurrence of each element, preserving insertion order. -/
def jsSetOfList {α : Type} [DecidableEq α] (l : List α) : List α :=
  l.foldl jsSetInsert []

/-- The candidate-id evidence extracted from one fetched page.  The
three fields abstract the results of `extractLicenseTypeIds`,
`extractLicenseSectionIds` and `extractLicenseNameIds` from the
accelerated fixer: each is the deduplicated list of candidate license
ids (in discovery order) that the corresponding regex strategy found in
the page's HTML. -/
structure PageEvidence where
  typeIds : List Int
  sectionIds : List Int
  nameIds : List Int
deriving Repr, DecidableEq

/-- The value returned by `decideMappedId` when it decides: a license id
together with the provenance source string. -/
structure MappedDecision where
  bcId : Int
  source : String
deriving Repr, DecidableEq

/-- `decideMappedId` from the accelerated fixer: prefer a singleton from
the type-marker strategy, then a singleton union of all three
strategies, then a singleton from the section-link strategy, then a
singleton from the name-marker strategy; otherwise no decision. -/
def decideMappedId (e : PageEvidence) : Option MappedDecision :=
  if e.typeIds.length = 1 then
    some ⟨e.typeIds.headI, "license_type"⟩
  else
    let all := jsSetOfList (e.typeIds ++ e.sectionIds ++ e.nameIds)
    if all.length = 1 then
      some ⟨all.headI, "combined_single"⟩
    else if e.sectionIds.length = 1 then
      some ⟨e.sectionIds.headI, "license_section"⟩
    else if e.nameIds.length = 1 then
      some ⟨e.nameIds.headI, "license_name"⟩
    else
      none

/-- Every element of a `jsSetOfList` result comes from the input list. -/
theorem mem_jsSetOfList {α : Type} [DecidableEq α] {l : List α} {x : α}
    (h : x ∈ jsSetOfList l) : x ∈ l := by
  suffices H : ∀ (l : List α) (acc : List α) (x : α),
      x ∈ l.foldl jsSetInsert acc → x ∈ acc ∨ x ∈ l by
    rcases H l [] x h with h' | h'
    · exact absurd h' (List.not_mem_nil x)
    · exact h'
  intro l
  induction l with
  | nil => intro acc x hx; exact Or.inl hx
  | cons a t ih =>
      intro acc x hx
      rcases ih (jsSetInsert acc a) x hx with h' | h'
      · unfold jsSetInsert at h'
        split at h'
        · exact Or.inl h'
        · rcases List.mem_append.mp h' with h'' | h''
          · exact Or.inl h''
          · simp only [List.mem_singleton] at h''
            subst h''
            exact Or.inr (List.mem_cons_self _ _)
      · exact Or.inr (List.mem_cons_of_mem _ h')

/-- JavaScript `s.startsWith(p)`, modelled character-wise on the
string's character list (the strings this pipeline handles are ASCII). -/
def strStartsWith (s p : String) : Bool :=
  p.data.isPrefixOf s.data

/-- JavaScript-style `endsWith`, modelled character-wise. -/
def strEndsWith (s p : String) : Bool :=
  p.data.isSuffixOf s.data

/-- Lowercasing, modelled character-wise. -/
def lowerStr (s : String) : String :=
  String.mk (s.data.map Char.toLower)

/-- Split a character list on a separator character, keeping empty
segments, as JavaScript `split` does. -/
def splitCharAux (sep : Char) : List Char → List Char → List (List Char)
  | [], acc => [acc.reverse]
  | c :: rest, acc =>
      if c = sep then acc.reverse :: splitCharAux sep rest []
      else splitCharAux sep rest (c :: acc)

/-- JavaScript `s.split(sep)` for a one-character separator. -/
def splitChar (sep : Char) (s : String) : List String :=
  (splitCharAux sep s.data []).map String.mk

/-- Model of JavaScript `new URL(raw)` for the plain
`scheme://host/path` URLs this pipeline handles (no query, fragment,
port or userinfo): the hostname (lowercased, as `URL` normalizes it) and
the raw path segments obtained by splitting the remainder on `/`. -/
def parseUrl (raw : String) : Option (String × List String) :=
  let schemeLen :=
    if strStartsWith raw "https://" then some 8
    else if strStartsWith raw "http://" then some 7
    else none
  match schemeLen with
  | none => none
  | some n =>
      let rest := String.mk (raw.data.drop n)
      match splitChar '/' rest with
      | [] => none
      | host :: pathParts =>
          if host = "" then none else some (lowerStr host, pathParts)

/-- `hostnameOf` from the accelerated fixer: the lowercased hostname of
a URL, or `none` when the URL does not parse. -/
def hostnameOf (raw : String) : Option String :=
  (parseUrl raw).map (·.1)

/-- `slugOfAlbumUrl` from the accelerated fixer: the non-empty path
segments must start with `album`; the second segment, lowercased, is the
item slug. -/
def slugOfAlbumUrl (raw : String) : Option String :=
  match parseUrl raw with
  | none => none
  | some (_, pathParts) =>
      match pathParts.filter (· ≠ "") with
      | p0 :: p1 :: _ => if p0 = "album" then some (lowerStr p1) else none
      | _ => none

/-- Whether the slug matches the JavaScript dash-digits-suffix regex
test: it ends in a dash followed by one or more digits. -/
def hasTrailingDashNumber (s : String) : Bool :=
  let rev := s.data.reverse
  let digits := rev.takeWhile Char.isDigit
  let rest := rev.dropWhile Char.isDigit
  decide (digits ≠ []) && decide (rest.head? = some '-')

/-- The slug with a trailing dash-digits suffix stripped when present
(the `slug.replace` call of the third search query). -/
def stripTrailingDashNumber (s : String) : String :=
  if hasTrailingDashNumber s then
    String.mk (((s.data.reverse.dropWhile Char.isDigit).drop 1).reverse)
  else s

/-- The host with a trailing `.bandcamp.com` removed (hosts are already
lowercased by parsing), as the alias fallback's `host.replace` call
computes the host stem. -/
def hostStemOf (host : String) : String :=
  if strEndsWith host ".bandcamp.com" then
    String.mk (host.data.take (host.data.length - ".bandcamp.com".data.length))
  else host

/-- JavaScript `slug.replaceAll("-", " ")`, modelled character-wise. -/
def dashToSpace (s : String) : String :=
  String.mk (s.data.map fun c => if c = '-' then ' ' else c)

/-- The search queries `findBandcampAliasAlbumUrl` issues for a given
host and slug: host stem with the raw slug, host stem with dashes
replaced by spaces, and, when the slug ends in a dash-number suffix,
host stem with the de-numbered slug. -/
def aliasQueries (host slug : String) : List String :=
  let hostStem := hostStemOf host
  let base := [hostStem ++ " " ++ slug, hostStem ++ " " ++ dashToSpace slug]
  if hasTrailingDashNumber slug then
    base ++ [hostStem ++ " " ++ dashToSpace (stripTrailingDashNumber slug)]
  else base

/-- The query loop of `findBandcampAliasAlbumUrl`.  `searchLinks q` is
the oracle for one Bandcamp search: `none` when the fetch failed (the
code's `!searched.ok || !searched.text` continue), otherwise the album
links `extractBandcampAlbumLinks` pulled from the response HTML.
Candidate links whose slug equals the record's slug accumulate in a
`Set`; more than one distinct candidate aborts with no alias (`none`
result models the early `return null`), exactly one breaks the loop. -/
def aliasLoop (slug : String) (searchLinks : String → Option (List String)) :
    List String → List String → Option (List String)
  | [], cands => some cands
  | q :: qs, cands =>
      match searchLinks q with
      | none => aliasLoop slug searchLinks qs cands
      | some links =>
          let cands := links.foldl
            (fun c link =>
              if slugOfAlbumUrl link = some slug then jsSetInsert c link else c)
            cands
          if cands.length > 1 then none
          else if cands.length = 1 then some cands
          else aliasLoop slug searchLinks qs cands

/-- `findBandcampAliasAlbumUrl` from the accelerated fixer, with the
network search abstracted by the `searchLinks` oracle: derive host and
slug from the original URL, run the query loop, and accept the single
candidate only when it differs from the original URL. -/
def findBandcampAliasAlbumUrl (originalUrl : String)
    (searchLinks : String → Option (List String)) : Option String :=
  match hostnameOf originalUrl, slugOfAlbumUrl originalUrl with
  | some host, some slug =>
      match aliasLoop slug searchLinks (aliasQueries host slug) [] with
      | none => none
      | some cands =>
          if cands.length = 1 then
            let aliasUrl := cands.headI
            if aliasUrl = originalUrl then none else some aliasUrl
          else none
  | _, _ => none

/-- Per-domain consensus summary, as `buildDomainConsensus` stores it:
total known-license rows on the domain, the first license id attaining
the maximal count (JavaScript keeps the first strict maximum in `Map`
iteration order), that maximal count, and the purity ratio (modelled as
a rational; the source stores a floating-point quotient). -/
structure ConsensusSummary where
  total : Nat
  topBcId : Option Int
  topCount : Nat
  purity : ℚ
deriving Repr, DecidableEq

/-- A catalog row as the consensus builder reads it: its (nullable)
license id and its URL. -/
structure ConsensusRow where
  license : Option Int
  url : String
deriving Repr, DecidableEq

/-- The licenses, in row order, of the rows with an integer license
whose URL parses to the given host — the contents of one bucket of
`buildDomainConsensus`. -/
def hostLicenses (rows : List ConsensusRow) (host : String) : List Int :=
  rows.filterMap fun r =>
    match r.license, hostnameOf r.url with
    | some lic, some h => if h = host then some lic else none
    | _, _ => none

/-- One step of `buildDomainConsensus`'s summary loop over a host's
per-license counts: add the license's count to the running total and
take the license as the new top when its count strictly exceeds the
current top count. -/
def consensusStep (count : Int → Nat) (acc : Nat × Option Int × Nat)
    (k : Int) : Nat × Option Int × Nat :=
  let c := count k
  if c > acc.2.2 then (acc.1 + c, some k, c) else (acc.1 + c, acc.2.1, acc.2.2)

/-- One entry of the summary map `buildDomainConsensus` returns: `none`
when no row contributed to the host's bucket, otherwise the fold over
the bucket's per-license counts (in first-occurrence order, matching
JavaScript `Map` iteration) accumulating the total and the first strict
maximum. -/
def consensusFor (rows : List ConsensusRow) (host : String) :
    Option ConsensusSummary :=
  let lics := hostLicenses rows host
  if lics.isEmpty then none
  else
    let keys := jsSetOfList lics
    let count := fun k => (lics.filter (· = k)).length
    let folded := keys.foldl (consensusStep count) (0, none, 0)
    some
      { total := folded.1
        topBcId := folded.2.1
        topCount := folded.2.2
        purity := if folded.1 > 0 then (folded.2.2 : ℚ) / (folded.1 : ℚ) else 0 }

/-- The domain-consensus gate of `inspectRow`: accept the majority id
only when a summary exists, its sample total meets `domainMinKnown`, its
purity meets `domainMinPurity`, and the majority id is an integer. -/
def domainConsensusDecision (consensus : Option ConsensusSummary)
    (domainMinKnown : Nat) (domainMinPurity : ℚ) : Option Int :=
  match consensus with
  | none => none
  | some c =>
      match c.topBcId with
      | some top =>
          if c.total ≥ domainMinKnown ∧ c.purity ≥ domainMinPurity then some top
          else none
      | none => none

/-- Result of one `fetchWithRetries` call, with the fetched HTML
abstracted to its extracted `PageEvidence`.  On a transport failure
(`ok = false`) the source sets status, final URL and text to `null` and
carries an error message. -/
structure FetchResult where
  ok : Bool
  status : Option Int
  finalUrl : Option String
  text : Option PageEvidence
  error : Option String
deriving Repr, DecidableEq

/-- A catalog listing record, restricted to the fields the pipeline
reads or writes. -/
structure Row where
  url_id : Int
  url : String
  title : String
  license : Option Int
  status : Option String
  health_checked_at : Option String
  health_reason : Option String
deriving Repr, DecidableEq, Inhabited

/-- The `mapped` part of a resolution outcome: license id, the (looked
up) category name, and the provenance source string. -/
structure MappedOutcome where
  bc_id : Int
  name : Option String
  source : String
deriving Repr, DecidableEq

/-- One per-record resolution outcome, as `inspectRow` returns it and as
run reports persist it. -/
structure Outcome where
  url_id : Int
  url : String
  title : String
  status : Option Int
  final_url : Option String
  archive_status : Option Int
  archive_url : Option String
  alias_url : Option String
  mapped : Option MappedOutcome
  reason : Option String
deriving Repr, DecidableEq

/-- The per-pass context `inspectRow` consults: the fallback enable
flags and thresholds from the options, the license-name lookup, and the
domain-consensus table built before the pass. -/
structure InspectContext where
  useArchive : Bool
  useSearchAlias : Bool
  useDomainConsensus : Bool
  domainMinKnown : Nat
  domainMinPurity : ℚ
  licenseById : Int → Option String
  domainConsensus : String → Option ConsensusSummary

/-- The network oracle for one record: the live fetch of its URL, the
Wayback snapshot lookup (`findWaybackSnapshotUrl`) with the fetch of
that snapshot, the Bandcamp search responses used by the alias fallback,
and the fetch of a discovered alias URL. -/
structure RowOracles where
  live : FetchResult
  snapshot : Option String
  archiveFetch : FetchResult
  searchLinks : String → Option (List String)
  aliasFetch : FetchResult

/-- Build the outcome for a decided evidence extraction. -/
def mappedOutcomeOf (ctx : InspectContext) (row : Row) (live : FetchResult)
    (archiveStatus : Option Int) (archiveUrl aliasUrl : Option String)
    (sourcePrefix : String) (m : MappedDecision) : Outcome :=
  { url_id := row.url_id
    url := row.url
    title := row.title
    status := live.status
    final_url := live.finalUrl
    archive_status := archiveStatus
    archive_url := archiveUrl
    alias_url := aliasUrl
    mapped := some
      { bc_id := m.bcId
        name := ctx.licenseById m.bcId
        source := sourcePrefix ++ m.source }
    reason := none }

/-- `inspectRow` from the accelerated fixer: the fallback chain for one
record.  Try the live page; on a 404 try the latest Wayback snapshot,
then a Bandcamp search alias; finally fall back to domain consensus;
otherwise report the HTTP status or fetch error as the unresolved
reason.  Network interaction is supplied by the `RowOracles`. -/
def inspectRow (row : Row) (ctx : InspectContext) (orc : RowOracles) : Outcome :=
  let live := orc.live
  let step1 : Option Outcome :=
    match live.ok, live.text with
    | true, some page =>
        (decideMappedId page).map fun m =>
          mappedOutcomeOf ctx row live none none none "" m
    | _, _ => none
  match step1 with
  | some o => o
  | none =>
  let step2 : Option Outcome :=
    if ctx.useArchive ∧ live.status = some 404 then
      match orc.snapshot with
      | some snapshotUrl =>
          let archived := orc.archiveFetch
          match archived.ok, archived.text with
          | true, some page =>
              (decideMappedId page).map fun m =>
                mappedOutcomeOf ctx row live archived.status (some snapshotUrl)
                  none "wayback_" m
          | _, _ => none
      | none => none
    else none
  match step2 with
  | some o => o
  | none =>
  let step3 : Option Outcome :=
    if ctx.useSearchAlias ∧ live.status = some 404 then
      match findBandcampAliasAlbumUrl row.url orc.searchLinks with
      | some aliasUrl =>
          let aliasFetched := orc.aliasFetch
          match aliasFetched.ok, aliasFetched.text with
          | true, some page =>
              (decideMappedId page).map fun m =>
                mappedOutcomeOf ctx row live none none (some aliasUrl)
                  "search_alias_" m
          | _, _ => none
      | none => none
    else none
  match step3 with
  | some o => o
  | none =>
  let step4 : Option Outcome :=
    if ctx.useDomainConsensus then
      let consensus :=
        match hostnameOf row.url with
        | some host => ctx.domainConsensus host
        | none => none
      match domainConsensusDecision consensus ctx.domainMinKnown
          ctx.domainMinPurity with
      | some top =>
          some
            { url_id := row.url_id
              url := row.url
              title := row.title
              status := live.status
              final_url := live.finalUrl
              archive_status := none
              archive_url := none
              alias_url := none
              mapped := some
                { bc_id := top
                  name := ctx.licenseById top
                  source := "domain_consensus" }
              reason := none }
      | none => none
    else none
  match step4 with
  | some o => o
  | none =>
      { url_id := row.url_id
        url := row.url
        title := row.title
        status := live.status
        final_url := live.finalUrl
        archive_status := none
        archive_url := none
        alias_url := none
        mapped := none
        reason := some <|
          match live.ok, live.status with
          | true, some s => "unresolved_status_" ++ toString s
          | _, _ => "fetch_error:" ++ (live.error.getD "unknown") }

/-- `normalizedStatus`: the three recognized status values pass
through; anything else (including an absent status) defaults to
`active`. -/
def normalizedStatus (s : Option String) : String :=
  match s with
  | some t => if t = "active" ∨ t = "dead" ∨ t = "unverified" then t else "active"
  | none => "active"

/-- `isVisibleActiveRow`: normalized status is `active` and the license
is a member of the valid category-id set (a `null` license is never a
member). -/
def isVisibleActiveRow (r : Row) (validBcIds : List Int) : Bool :=
  normalizedStatus r.status = "active" &&
    match r.license with
    | some b => validBcIds.contains b
    | none => false

/-- `new Map(results.map(r => [r.url_id, r])).get(id)`: the last result
carrying the given record id, if any. -/
def resultById (results : List Outcome) (id : Int) : Option Outcome :=
  results.foldl (fun acc r => if r.url_id = id then some r else acc) none

/-- The JavaScript falsy-source fallback `source || "mapped_unknown"`
applied to a mapped outcome's source string. -/
def effectiveSource (m : MappedOutcome) : String :=
  if m.source = "" then "mapped_unknown" else m.source

/-- The JavaScript falsy-reason fallback `reason || "unresolved"`. -/
def effectiveReason (reason : Option String) : String :=
  match reason with
  | some s => if s = "" then "unresolved" else s
  | none => "unresolved"

/-- The merge loop body of the accelerated fixer's `main` for one row:
stamp `health_checked_at`; copy a mapped license id; on a mapped
outcome, rewrite the URL for alias-sourced decisions, then mark the row
dead (reason `http_404`) when the live status was 404 without an alias
substitution or when the decision was archive-sourced, else mark it
active with the provenance as the health reason; on an unmapped outcome
mark the row dead for `unresolved_status_404`, else unverified with the
outcome's reason. -/
def applyOutcome (ts : String) (row : Row) (m : Option Outcome) : Row :=
  match m with
  | none => row
  | some r =>
      let row := { row with health_checked_at := some ts }
      let row :=
        match r.mapped with
        | some mp => { row with license := some mp.bc_id }
        | none => row
      match r.mapped with
      | some mp =>
          let source := effectiveSource mp
          let mappedViaAlias := strStartsWith source "search_alias_"
          let confirmedDead := r.status = some 404 ∧ ¬ mappedViaAlias
          let row :=
            if mappedViaAlias then
              match r.alias_url with
              | some aurl => { row with url := aurl }
              | none => row
            else row
          if confirmedDead ∨ strStartsWith source "wayback_" then
            { row with status := some "dead", health_reason := some "http_404" }
          else
            { row with status := some "active", health_reason := some source }
      | none =>
          if r.reason = some "unresolved_status_404" then
            { row with status := some "dead", health_reason := some "http_404" }
          else
            { row with
                status := some "unverified"
                health_reason := some (effectiveReason r.reason) }

/-- The accelerated fixer's full merge: every row is updated with the
last outcome bearing its id (none leaves it untouched). -/
def applyOutcomes (ts : String) (urls : List Row) (results : List Outcome) :
    List Row :=
  urls.map fun row => applyOutcome ts row (resultById results row.url_id)

/-- Bump one key of a count map (`counts.set(k, (counts.get(k) || 0) + 1)`). -/
def bumpCount (counts : Int → Nat) (k : Int) : Int → Nat :=
  fun b => if b = k then counts k + 1 else counts b

/-- The accelerated fixer's post-merge license-count recomputation:
count every visible active row under its license id (`cleanedLicenses`
then reads `counts.get(bc_id) || 0`, which the total function with
default 0 models). -/
def countsByBcIdAccel (urls : List Row) (validBcIds : List Int) : Int → Nat :=
  urls.foldl
    (fun counts r =>
      if isVisibleActiveRow r validBcIds then
        match r.license with
        | some k => bumpCount counts k
        | none => counts
      else counts)
    (fun _ => 0)

/-- The exact fixer's post-merge license-count recomputation: count
every row with an integer license under its license id, with no status
filter. -/
def countsByBcIdExact (urls : List Row) : Int → Nat :=
  urls.foldl
    (fun counts r =>
      match r.license with
      | some k => bumpCount counts k
      | none => counts)
    (fun _ => 0)

/-- The per-result update of `reconcile-url-health-from-reports`: the
same health policy as `applyOutcome`, with equality guards before the
license and URL writes (the source counts changes; the guards do not
change the final state). -/
def reconcileApply (genAt : String) (row : Row) (r : Outcome) : Row :=
  let row := { row with health_checked_at := some genAt }
  let row :=
    match r.mapped with
    | some mp =>
        if row.license ≠ some mp.bc_id then { row with license := some mp.bc_id }
        else row
    | none => row
  match r.mapped with
  | some mp =>
      let source := effectiveSource mp
      let mappedViaAlias := strStartsWith source "search_alias_"
      let confirmedDead := r.status = some 404 ∧ ¬ mappedViaAlias
      let row :=
        if mappedViaAlias then
          match r.alias_url with
          | some aurl => if row.url ≠ aurl then { row with url := aurl } else row
          | none => row
        else row
      if confirmedDead ∨ strStartsWith source "wayback_" then
        { row with status := some "dead", health_reason := some "http_404" }
      else
        { row with status := some "active", health_reason := some source }
  | none =>
      if r.reason = some "unresolved_status_404" then
        { row with status := some "dead", health_reason := some "http_404" }
      else
        { row with
            status := some "unverified"
            health_reason := some (effectiveReason r.reason) }

/-- Index of the row the reconciler's `rowsById.get(id)` mutates: `new
Map` keeps the last entry per key, so the last row with the id. -/
def lastIdxWithId : List Row → Int → Option Nat
  | [], _ => none
  | row :: rest, id =>
      match lastIdxWithId rest id with
      | some j => some (j + 1)
      | none => if row.url_id = id then some 0 else none

/-- Apply one report result to the record list, mutating (through the
id map) the last row carrying the result's id, if present. -/
def reconcileResult (genAt : String) (urls : List Row) (r : Outcome) :
    List Row :=
  match lastIdxWithId urls r.url_id with
  | none => urls
  | some i => urls.set i (reconcileApply genAt (urls.getD i default) r)

/-- A persisted run report, reduced to what the reconciler replays: its
generation timestamp and its per-record outcomes. -/
structure Report where
  generated_at : String
  results : List Outcome

/-- The Report Reconciler's replay: fold the reports (already sorted by
generation timestamp, as the source sorts them before this loop) over
the record set, applying every result of every report in order. -/
def replayReports (urls : List Row) (reports : List Report) : List Row :=
  reports.foldl
    (fun u rep => rep.results.foldl (reconcileResult rep.generated_at) u) urls

/-- The sequence of live merges that produced the reports: each run's
merge stamped rows with the run timestamp that also became the report's
`generated_at`. -/
def liveMerges (urls : List Row) (reports : List Report) : List Row :=
  reports.foldl (fun u rep => applyOutcomes rep.generated_at u rep.results) urls

/-- The outcome the exact fixer's `inspectListing` produces (reduced to
the fields the merge and the reports consume). -/
structure ExactOutcome where
  url_id : Int
  status : Option Int
  mapped : Option (Int × String)
  reason : Option String
deriving Repr, DecidableEq

/-- The decision core of the exact fixer's `inspectListing`, applied to
a successfully fetched page: `detected` is the deduplicated list of
canonical CC license URLs `extractCcLicenseUrls` found, `targetMap`
looks a canonical URL up in the legitimate-target map (yielding a
category id and name).  Exactly one distinct matched id maps the
listing; otherwise the unresolved reason distinguishes an error status
with no detection (`http_status_N`), no legitimate match
(`no_exact_legitimate_match`), and conflicting matches
(`ambiguous_exact_matches`). -/
def inspectListingDecision (urlId : Int) (status : Int)
    (detected : List String) (targetMap : String → Option (Int × String)) :
    ExactOutcome :=
  let matched := detected.filterMap fun d => (targetMap d).map fun t => (d, t)
  let uniqueBcIds := jsSetOfList (matched.map (·.2.1))
  if uniqueBcIds.length = 1 then
    { url_id := urlId
      status := some status
      mapped := some (uniqueBcIds.headI, (matched.headI).2.2)
      reason := none }
  else
    { url_id := urlId
      status := some status
      mapped := none
      reason := some <|
        if detected.length = 0 ∧ status ≥ 400 then
          "http_status_" ++ toString status
        else if matched.length = 0 then
          "no_exact_legitimate_match"
        else
          "ambiguous_exact_matches" }

/-- `new Map(results.map(r => [r.url_id, r])).get(id)` for the exact
fixer's results. -/
def exactResultById (results : List ExactOutcome) (id : Int) :
    Option ExactOutcome :=
  results.foldl (fun acc r => if r.url_id = id then some r else acc) none

/-- The exact fixer's merge loop body for one row: only a mapped
outcome writes, and it writes only the license id. -/
def applyExactOutcome (row : Row) (m : Option ExactOutcome) : Row :=
  match m with
  | none => row
  | some r =>
      match r.mapped with
      | some mp => { row with license := some mp.1 }
      | none => row

/-- The exact fixer's full merge over the record list. -/
def applyExactOutcomes (urls : List Row) (results : List ExactOutcome) :
    List Row :=
  urls.map fun row => applyExactOutcome row (exactResultById results row.url_id)

/-- The orchestrator options the loop consults. -/
structure OrchOptions where
  maxPasses : Nat
  stopAfterNoProgressPasses : Nat
deriving Repr, DecidableEq

/-- The loop state of the exhaustive fixer's `main`: the pass counter
and the consecutive no-progress counter. -/
structure OrchState where
  pass : Nat
  consecutiveNoProgress : Nat
deriving Repr, DecidableEq

/-- What the orchestrator reads from the report of one pass. -/
structure PassReport where
  mapped : Nat
  missingAfter : Nat
deriving Repr, DecidableEq

/-- Why the orchestrator loop stopped. -/
inductive StopCause where
  | allResolved
  | stalled
  | passCap
deriving Repr, DecidableEq

/-- One iteration of the exhaustive fixer's loop, after the pass ran:
increment the pass counter; bump the no-progress counter on
`mapped = 0`, reset it otherwise; then stop when all licenses are
resolved, when the no-progress counter reaches a positive stall
threshold, or when the pass counter reaches a positive pass cap. -/
def orchEval (opts : OrchOptions) (st : OrchState) (rep : PassReport) :
    OrchState × Option StopCause :=
  let pass := st.pass + 1
  let cnp := if rep.mapped = 0 then st.consecutiveNoProgress + 1 else 0
  let st' : OrchState := ⟨pass, cnp⟩
  if rep.missingAfter = 0 then (st', some StopCause.allResolved)
  else if opts.stopAfterNoProgressPasses > 0 ∧
      cnp ≥ opts.stopAfterNoProgressPasses then (st', some StopCause.stalled)
  else if opts.maxPasses > 0 ∧ pass ≥ opts.maxPasses then
    (st', some StopCause.passCap)
  else (st', none)

/-- The orchestrator loop driven by the (oracle) sequence of pass
reports: run passes until one of the stop conditions fires or the
report supply ends. -/
def orchRun (opts : OrchOptions) :
    OrchState → List PassReport → OrchState × Option StopCause
  | st, [] => (st, none)
  | st, r :: rs =>
      match orchEval opts st r with
      | (st', some c) => (st', some c)
      | (st', none) => orchRun opts st' rs

/-! ## Helper lemmas -/

theorem jsSetInsert_of_mem {α : Type} [DecidableEq α] {l : List α} {x : α}
    (h : x ∈ l) : jsSetInsert l x = l := by
  simp [jsSetInsert, h]

theorem jsSetInsert_of_not_mem {α : Type} [DecidableEq α] {l : List α} {x : α}
    (h : x ∉ l) : jsSetInsert l x = l ++ [x] := by
  simp [jsSetInsert, h]

theorem mem_jsSetInsert_left {α : Type} [DecidableEq α] {l : List α} {x : α}
    (y : α) (h : x ∈ l) : x ∈ jsSetInsert l y := by
  unfold jsSetInsert
  split
  · exact h
  · exact List.mem_append_left _ h

theorem mem_jsSetInsert_self {α : Type} [DecidableEq α] (l : List α) (y : α) :
    y ∈ jsSetInsert l y := by
  unfold jsSetInsert
  split
  · assumption
  · exact List.mem_append_right _ (List.mem_singleton_self y)

theorem mem_jsSetOfList_of_mem {α : Type} [DecidableEq α] {l : List α} {x : α}
    (h : x ∈ l) : x ∈ jsSetOfList l := by
  suffices H : ∀ (l acc : List α) (x : α), x ∈ l ∨ x ∈ acc →
      x ∈ l.foldl jsSetInsert acc from H l [] x (Or.inl h)
  intro l
  induction l with
  | nil =>
      intro acc x hx
      rcases hx with hx | hx
      · exact absurd hx (List.not_mem_nil x)
      · exact hx
  | cons a t ih =>
      intro acc x hx
      rcases hx with hx | hx
      · rcases List.mem_cons.mp hx with rfl | hx'
        · exact ih _ _ (Or.inr (mem_jsSetInsert_self acc x))
        · exact ih _ _ (Or.inl hx')
      · exact ih _ _ (Or.inr (mem_jsSetInsert_left a hx))

theorem jsSetOfList_length_le {α : Type} [DecidableEq α] (l : List α) :
    (jsSetOfList l).length ≤ l.length := by
  suffices H : ∀ (l acc : List α),
      (l.foldl jsSetInsert acc).length ≤ acc.length + l.length by
    simpa using H l []
  intro l
  induction l with
  | nil => intro acc; simp
  | cons a t ih =>
      intro acc
      calc ((a :: t).foldl jsSetInsert acc).length
          = (t.foldl jsSetInsert (jsSetInsert acc a)).length := rfl
        _ ≤ (jsSetInsert acc a).length + t.length := ih _
        _ ≤ (acc.length + 1) + t.length := by
            have : (jsSetInsert acc a).length ≤ acc.length + 1 := by
              unfold jsSetInsert
              split
              · omega
              · simp
            omega
        _ = acc.length + (a :: t).length := by simp; omega

theorem length_eq_one_iff_headI {α : Type} [Inhabited α] {l : List α}
    (h : l.length = 1) : l = [l.headI] := by
  match l with
  | [] => simp at h
  | [a] => rfl
  | a :: b :: t => simp at h

theorem headI_mem_of_length_eq_one {α : Type} [Inhabited α] {l : List α}
    (h : l.length = 1) : l.headI ∈ l := by
  rw [length_eq_one_iff_headI h]
  exact List.mem_singleton_self _

/-! ## C1 and C10: the Evidence Reconciler -/

/-- **C1 (counterexample).**  With no type-marker signal, section-link
candidates `{3}` and name-marker candidates `{5}`, `decideMappedId` does
NOT report "no decision": it accepts the section-link singleton `3` with
provenance `license_section`, contrary to the claim. -/
theorem c1_counterexample :
    decideMappedId ⟨[], [3], [5]⟩ ≠ none ∧
      decideMappedId ⟨[], [3], [5]⟩ = some ⟨3, "license_section"⟩ := by
  constructor
  · decide
  · decide

/-- **C1 (amended).**  For every page whose type-marker strategy yields
no candidate ids and whose section-link and name-marker strategies each
yield a single but different id, `decideMappedId` accepts the
section-link singleton with provenance `license_section` (rule 3 tests
only the section-link set's cardinality, not agreement with the
name-marker set); it does not report "no decision". -/
theorem c1_section_singleton_decides (s n : Int) (h : s ≠ n) :
    decideMappedId ⟨[], [s], [n]⟩ = some ⟨s, "license_section"⟩ := by
  have hins : jsSetOfList [s, n] = [s, n] := by
    have h1 : jsSetInsert ([] : List Int) s = [s] :=
      jsSetInsert_of_not_mem (List.not_mem_nil s)
    have h2 : jsSetInsert [s] n = [s, n] := by
      rw [jsSetInsert_of_not_mem]
      · rfl
      · simp [Ne.symm h]
    simp [jsSetOfList, h1, h2]
  simp only [decideMappedId, List.nil_append, List.singleton_append]
  rw [if_neg (by simp)]
  simp only [hins]
  rw [if_neg (by simp), if_pos (by simp)]
  rfl

/-- **C1 (witness).** -/
theorem c1_witness :
    (3 : Int) ≠ 5 ∧ decideMappedId ⟨[], [3], [5]⟩ = some ⟨3, "license_section"⟩ :=
  ⟨by decide, c1_section_singleton_decides 3 5 (by decide)⟩

/-- **C10.**  Whenever `decideMappedId` returns a decision, the decided
id belongs to the union of the three strategies' candidate sets, and the
provenance source names a strategy whose candidate set contains the id
(`combined_single` names the union, which then is exactly the singleton
of the decided id). -/
theorem c10_decision_from_evidence (e : PageEvidence) (m : MappedDecision)
    (h : decideMappedId e = some m) :
    (m.bcId ∈ e.typeIds ∨ m.bcId ∈ e.sectionIds ∨ m.bcId ∈ e.nameIds) ∧
      (m.source = "license_type" → m.bcId ∈ e.typeIds) ∧
      (m.source = "combined_single" →
        jsSetOfList (e.typeIds ++ e.sectionIds ++ e.nameIds) = [m.bcId]) ∧
      (m.source = "license_section" → m.bcId ∈ e.sectionIds) ∧
      (m.source = "license_name" → m.bcId ∈ e.nameIds) := by
  by_cases h1 : e.typeIds.length = 1
  · simp only [decideMappedId, if_pos h1, Option.some.injEq] at h
    subst h
    have hm := headI_mem_of_length_eq_one h1
    refine ⟨Or.inl hm, fun _ => hm, ?_, ?_, ?_⟩ <;> · intro hs; simp at hs
  · by_cases h2 : (jsSetOfList (e.typeIds ++ e.sectionIds ++ e.nameIds)).length = 1
    · simp only [decideMappedId, if_neg h1, if_pos h2, Option.some.injEq] at h
      subst h
      have hm := headI_mem_of_length_eq_one h2
      have hu := mem_jsSetOfList (l := e.typeIds ++ e.sectionIds ++ e.nameIds) hm
      have hmem :
          (jsSetOfList (e.typeIds ++ e.sectionIds ++ e.nameIds)).headI ∈ e.typeIds ∨
          (jsSetOfList (e.typeIds ++ e.sectionIds ++ e.nameIds)).headI ∈ e.sectionIds ∨
          (jsSetOfList (e.typeIds ++ e.sectionIds ++ e.nameIds)).headI ∈ e.nameIds := by
        simpa [List.mem_append, or_assoc] using hu
      refine ⟨hmem, ?_, fun _ => (length_eq_one_iff_headI h2), ?_, ?_⟩ <;>
        · intro hs; simp at hs
    · by_cases h3 : e.sectionIds.length = 1
      · simp only [decideMappedId, if_neg h1, if_neg h2, if_pos h3,
          Option.some.injEq] at h
        subst h
        have hm := headI_mem_of_length_eq_one h3
        refine ⟨Or.inr (Or.inl hm), ?_, ?_, fun _ => hm, ?_⟩ <;>
          · intro hs; simp at hs
      · by_cases h4 : e.nameIds.length = 1
        · simp only [decideMappedId, if_neg h1, if_neg h2, if_neg h3, if_pos h4,
            Option.some.injEq] at h
          subst h
          have hm := headI_mem_of_length_eq_one h4
          refine ⟨Or.inr (Or.inr hm), ?_, ?_, ?_, fun _ => hm⟩ <;>
            · intro hs; simp at hs
        · simp only [decideMappedId, if_neg h1, if_neg h2, if_neg h3,
            if_neg h4] at h
          exact absurd h (by simp)

/-- **C10 (witness).** -/
theorem c10_witness :
    (3 : Int) ∈ ([3] : List Int) ∨ (3 : Int) ∈ ([] : List Int) ∨
      (3 : Int) ∈ ([] : List Int) :=
  (c10_decision_from_evidence ⟨[3], [], []⟩ ⟨3, "license_type"⟩ (by decide)).1

/-! ## C9: the Multi-Pass Orchestrator -/

/-- **C9.**  After a pass, the orchestrator loop stops exactly when the
unresolved-after count is zero, or the consecutive no-progress counter
(bumped on `mapped = 0`, reset on `mapped > 0`) has reached a positive
stall threshold, or the pass counter has reached a positive pass cap;
the no-progress counter resets to zero on any pass with `mapped > 0`.
In particular, with stall threshold 3 and no pass cap, three consecutive
`mapped = 0` passes terminate the loop with the stall cause. -/
theorem c9_orchestrator_termination :
    (∀ (opts : OrchOptions) (st : OrchState) (rep : PassReport),
      ((orchEval opts st rep).2.isSome = true ↔
        (rep.missingAfter = 0 ∨
          (0 < opts.stopAfterNoProgressPasses ∧
            opts.stopAfterNoProgressPasses ≤
              (if rep.mapped = 0 then st.consecutiveNoProgress + 1 else 0)) ∨
          (0 < opts.maxPasses ∧ opts.maxPasses ≤ st.pass + 1))) ∧
      (0 < rep.mapped →
        (orchEval opts st rep).1.consecutiveNoProgress = 0)) ∧
    orchRun ⟨0, 3⟩ ⟨0, 0⟩ (List.replicate 3 ⟨0, 5⟩) =
      (⟨3, 3⟩, some StopCause.stalled) := by
  constructor
  · intro opts st rep
    constructor
    · by_cases hm0 : rep.mapped = 0 <;>
        · unfold orchEval
          simp only [hm0, if_pos, if_neg, if_true, if_false]
          split_ifs <;> simp_all <;> omega
    · intro hm
      have hne : ¬ rep.mapped = 0 := by omega
      unfold orchEval
      simp only [if_neg hne]
      split_ifs <;> rfl
  · decide

/-- **C9 (witness).**  Concrete instantiation of the stop-condition
characterization: state after two stalled passes, a third `mapped = 0`
pass, stall threshold 3 — the loop stops; and a pass with `mapped = 2`
resets the counter. -/
theorem c9_witness :
    (orchEval ⟨0, 3⟩ ⟨2, 2⟩ ⟨0, 7⟩).2.isSome = true ∧
      (orchEval ⟨0, 3⟩ ⟨2, 2⟩ ⟨2, 7⟩).1.consecutiveNoProgress = 0 :=
  ⟨((c9_orchestrator_termination.1 ⟨0, 3⟩ ⟨2, 2⟩ ⟨0, 7⟩).1).mpr (by decide),
    (c9_orchestrator_termination.1 ⟨0, 3⟩ ⟨2, 2⟩ ⟨2, 7⟩).2 (by decide)⟩

/-! ## C3: license-count recomputation -/

theorem countsByBcIdAccel_eq_filter (urls : List Row) (validBcIds : List Int)
    (b : Int) :
    countsByBcIdAccel urls validBcIds b =
      (urls.filter fun r =>
        isVisibleActiveRow r validBcIds && decide (r.license = some b)).length := by
  suffices H : ∀ (urls : List Row) (cnts : Int → Nat),
      (urls.foldl
        (fun counts r =>
          if isVisibleActiveRow r validBcIds then
            match r.license with
            | some k => bumpCount counts k
            | none => counts
          else counts)
        cnts) b =
      cnts b +
        (urls.filter fun r =>
          isVisibleActiveRow r validBcIds && decide (r.license = some b)).length by
    simpa [countsByBcIdAccel] using H urls (fun _ => 0)
  intro urls
  induction urls with
  | nil => intro cnts; simp
  | cons r t ih =>
      intro cnts
      simp only [List.foldl_cons, List.filter_cons]
      rw [ih]
      by_cases hv : isVisibleActiveRow r validBcIds
      · rcases hl : r.license with _ | k
        · rw [isVisibleActiveRow, hl] at hv
          simp at hv
        · by_cases hbk : b = k
          · subst hbk
            simp [hv, hl, bumpCount]
            omega
          · have hkb : ¬ (k = b) := fun h => hbk h.symm
            simp [hv, hl, bumpCount, hbk, hkb]
      · have hv' : isVisibleActiveRow r validBcIds = false := by
          simpa using hv
        simp [hv']

theorem countsByBcIdExact_eq_filter (urls : List Row) (b : Int) :
    countsByBcIdExact urls b =
      (urls.filter fun r => decide (r.license = some b)).length := by
  suffices H : ∀ (urls : List Row) (cnts : Int → Nat),
      (urls.foldl
        (fun counts r =>
          match r.license with
          | some k => bumpCount counts k
          | none => counts)
        cnts) b =
      cnts b + (urls.filter fun r => decide (r.license = some b)).length by
    simpa [countsByBcIdExact] using H urls (fun _ => 0)
  intro urls
  induction urls with
  | nil => intro cnts; simp
  | cons r t ih =>
      intro cnts
      simp only [List.foldl_cons, List.filter_cons]
      rcases hl : r.license with _ | k
      · rw [ih]
        simp [hl]
      · by_cases hbk : b = k
        · subst hbk
          rw [ih]
          simp [hl, bumpCount]
          omega
        · rw [ih]
          have hkb : ¬ (k = b) := fun h => hbk h.symm
          have h1 : bumpCount cnts k b = cnts b := by simp [bumpCount, hbk]
          simp [hl, h1, hkb]

/-- The dataset used to refute the uniform count claim. -/
def urlsC3 : List Row :=
  [⟨1, "https://h1/x", "t", some 4, some "dead", none, none⟩]

/-- **C3 (counterexample).**  A single record with `status = dead` and
`license = 4`: the exact fixer's recomputed count for category 4 is 1,
but the number of active records referencing category 4 is 0 — so the
claim's "count equals the number of active records referencing the
category" fails for the exact fixer. -/
theorem c3_counterexample :
    countsByBcIdExact urlsC3 4 = 1 ∧
      (urlsC3.filter fun r =>
        decide (normalizedStatus r.status = "active") &&
          decide (r.license = some 4)).length = 0 := by
  constructor
  · decide
  · decide

/-- **C3 (amended).**  After the count recomputation, the accelerated
fixer's count for a known category equals the number of records with
normalized status `active` whose license references that category; the
exact fixer's count equals the number of records whose license
references that category regardless of status. -/
theorem c3_recount_semantics :
    (∀ (urls : List Row) (validBcIds : List Int) (b : Int), b ∈ validBcIds →
      countsByBcIdAccel urls validBcIds b =
        (urls.filter fun r =>
          decide (normalizedStatus r.status = "active") &&
            decide (r.license = some b)).length) ∧
    (∀ (urls : List Row) (b : Int),
      countsByBcIdExact urls b =
        (urls.filter fun r => decide (r.license = some b)).length) := by
  constructor
  · intro urls validBcIds b hb
    rw [countsByBcIdAccel_eq_filter]
    congr 1
    apply List.filter_congr
    intro r _
    by_cases hl : r.license = some b
    · simp [isVisibleActiveRow, hl]
      exact fun _ => hb
    · simp [hl]
  · intro urls b
    exact countsByBcIdExact_eq_filter urls b

/-- **C3 (witness).** -/
theorem c3_witness :
    countsByBcIdAccel urlsC3 [4] 4 =
      (urlsC3.filter fun r =>
        decide (normalizedStatus r.status = "active") &&
          decide (r.license = some (4 : Int))).length :=
  c3_recount_semantics.1 urlsC3 [4] 4 (by decide)

/-! ## C5: merge idempotence -/

theorem applyOutcome_url_id (ts : String) (row : Row) (m : Option Outcome) :
    (applyOutcome ts row m).url_id = row.url_id := by
  rcases m with _ | r
  · rfl
  · rcases hm : r.mapped with _ | mp <;>
      simp only [applyOutcome, hm] <;>
      rcases r.alias_url with _ | aurl <;>
      split_ifs <;> rfl

theorem applyOutcome_idem (ts : String) (row : Row) (m : Option Outcome) :
    applyOutcome ts (applyOutcome ts row m) m = applyOutcome ts row m := by
  rcases m with _ | r
  · rfl
  · rcases hm : r.mapped with _ | mp <;>
      simp only [applyOutcome, hm] <;>
      rcases r.alias_url with _ | aurl <;>
      split_ifs <;> rfl

theorem applyExactOutcome_url_id (row : Row) (m : Option ExactOutcome) :
    (applyExactOutcome row m).url_id = row.url_id := by
  rcases m with _ | r
  · rfl
  · rcases hm : r.mapped with _ | mp <;> simp [applyExactOutcome, hm]

theorem applyExactOutcome_idem (row : Row) (m : Option ExactOutcome) :
    applyExactOutcome (applyExactOutcome row m) m = applyExactOutcome row m := by
  rcases m with _ | r
  · rfl
  · rcases hm : r.mapped with _ | mp <;> simp [applyExactOutcome, hm]

/-- **C5.**  Both mergers are idempotent: applying a batch of outcomes
to the state obtained by applying that same batch changes nothing
further — the record set and therefore the recomputed license counts
coincide with a single application.  This holds for the accelerated
fixer's merge and for the exact fixer's merge. -/
theorem c5_merge_idempotent (ts : String) (urls : List Row)
    (results : List Outcome) (validBcIds : List Int)
    (eresults : List ExactOutcome) :
    applyOutcomes ts (applyOutcomes ts urls results) results =
        applyOutcomes ts urls results ∧
      countsByBcIdAccel (applyOutcomes ts (applyOutcomes ts urls results) results)
          validBcIds =
        countsByBcIdAccel (applyOutcomes ts urls results) validBcIds ∧
      applyExactOutcomes (applyExactOutcomes urls eresults) eresults =
        applyExactOutcomes urls eresults ∧
      countsByBcIdExact (applyExactOutcomes (applyExactOutcomes urls eresults)
          eresults) =
        countsByBcIdExact (applyExactOutcomes urls eresults) := by
  have h1 : applyOutcomes ts (applyOutcomes ts urls results) results =
      applyOutcomes ts urls results := by
    unfold applyOutcomes
    rw [List.map_map]
    apply List.map_congr_left
    intro row _
    show applyOutcome ts (applyOutcome ts row (resultById results row.url_id))
        (resultById results
          (applyOutcome ts row (resultById results row.url_id)).url_id) =
      applyOutcome ts row (resultById results row.url_id)
    rw [applyOutcome_url_id]
    exact applyOutcome_idem ts row (resultById results row.url_id)
  have h2 : applyExactOutcomes (applyExactOutcomes urls eresults) eresults =
      applyExactOutcomes urls eresults := by
    unfold applyExactOutcomes
    rw [List.map_map]
    apply List.map_congr_left
    intro row _
    show applyExactOutcome (applyExactOutcome row (exactResultById eresults row.url_id))
        (exactResultById eresults
          (applyExactOutcome row (exactResultById eresults row.url_id)).url_id) =
      applyExactOutcome row (exactResultById eresults row.url_id)
    rw [applyExactOutcome_url_id]
    exact applyExactOutcome_idem row (exactResultById eresults row.url_id)
  exact ⟨h1, by rw [h1], h2, by rw [h2]⟩

/-! ## C6: domain-consensus gating -/

theorem consensusFold_isSome_preserved (count : Int → Nat) :
    ∀ (keys : List Int) (acc : Nat × Option Int × Nat),
      acc.2.1.isSome = true →
      ((keys.foldl (consensusStep count) acc).2.1).isSome = true := by
  intro keys
  induction keys with
  | nil => intro acc h; exact h
  | cons k rest ih =>
      intro acc h
      apply ih
      unfold consensusStep
      dsimp only
      split
      · simp
      · exact h

theorem consensusFor_topBcId_isSome {rows : List ConsensusRow} {host : String}
    {c : ConsensusSummary} (h : consensusFor rows host = some c) :
    c.topBcId.isSome = true := by
  rcases hl : hostLicenses rows host with _ | ⟨a, t⟩
  · rw [consensusFor, hl] at h
    simp at h
  · rw [consensusFor, hl] at h
    simp only [List.isEmpty_cons, Bool.false_eq_true, if_false,
      Option.some.injEq] at h
    subst h
    show (((jsSetOfList (a :: t)).foldl
        (consensusStep fun k => ((a :: t).filter (· = k)).length)
        (0, none, 0)).2.1).isSome = true
    have hmem : a ∈ jsSetOfList (a :: t) :=
      mem_jsSetOfList_of_mem (List.mem_cons_self a t)
    rcases hk : jsSetOfList (a :: t) with _ | ⟨k, ks⟩
    · rw [hk] at hmem
      exact absurd hmem (List.not_mem_nil a)
    · rw [List.foldl_cons]
      apply consensusFold_isSome_preserved
      have hkmem : k ∈ (a :: t) := by
        apply mem_jsSetOfList
        rw [hk]
        exact List.mem_cons_self k ks
      have hcount : 1 ≤ ((a :: t).filter (· = k)).length := by
        have : k ∈ (a :: t).filter (· = k) := by
          apply List.mem_filter.mpr
          exact ⟨hkmem, by simp⟩
        calc 1 = [k].length := rfl
          _ ≤ _ := (List.singleton_sublist.mpr this).length_le
      unfold consensusStep
      dsimp only
      split
      · simp
      · omega

/-- The 15-row single-domain, single-license dataset of the claim's
concrete scenario. -/
def rows15 : List ConsensusRow := List.replicate 15 ⟨some 4, "https://h1/x"⟩

/-- **C6.**  The domain-consensus gate accepts the domain's majority
license id if and only if the domain's known-sample total meets
`domainMinKnown` and its purity meets `domainMinPurity`; in particular,
the 15-sample purity-1 domain of `rows15` is rejected at
`domainMinKnown = 20` and accepted (id 4) at `domainMinKnown = 10`. -/
theorem c6_consensus_gating :
    (∀ (rows : List ConsensusRow) (host : String) (minKnown : Nat)
        (minPurity : ℚ) (c : ConsensusSummary),
      consensusFor rows host = some c →
      ((domainConsensusDecision (some c) minKnown minPurity).isSome = true ↔
        (minKnown ≤ c.total ∧ minPurity ≤ c.purity))) ∧
    domainConsensusDecision (consensusFor rows15 "h1") 20 1 = none ∧
    domainConsensusDecision (consensusFor rows15 "h1") 10 1 = some 4 := by
  refine ⟨?_, ?_, ?_⟩
  · intro rows host minKnown minPurity c hc
    obtain ⟨top, htop⟩ :=
      Option.isSome_iff_exists.mp (consensusFor_topBcId_isSome hc)
    simp only [domainConsensusDecision, htop]
    split_ifs with hcond
    · simpa [ge_iff_le] using hcond
    · simp only [Option.isSome_none, Bool.false_eq_true, false_iff]
      simpa [ge_iff_le] using hcond
  · have h : consensusFor rows15 "h1" =
        some ⟨15, some 4, 15, ((15 : Nat) : ℚ) / ((15 : Nat) : ℚ)⟩ := rfl
    rw [h]
    simp [domainConsensusDecision]
  · have h : consensusFor rows15 "h1" =
        some ⟨15, some 4, 15, ((15 : Nat) : ℚ) / ((15 : Nat) : ℚ)⟩ := rfl
    rw [h]
    norm_num [domainConsensusDecision]

/-- **C6 (witness).** -/
theorem c6_witness :
    (domainConsensusDecision
        (some ⟨15, some 4, 15, ((15 : Nat) : ℚ) / ((15 : Nat) : ℚ)⟩)
        10 1).isSome = true ↔
      (10 ≤ (⟨15, some 4, 15,
          ((15 : Nat) : ℚ) / ((15 : Nat) : ℚ)⟩ : ConsensusSummary).total ∧
        (1 : ℚ) ≤ (⟨15, some 4, 15,
          ((15 : Nat) : ℚ) / ((15 : Nat) : ℚ)⟩ : ConsensusSummary).purity) :=
  c6_consensus_gating.1 rows15 "h1" 10 1 _ rfl

/-! ## C7: alias-fallback ambiguity rejection -/

theorem aliasFold_eq (slug : String) (links : List String) :
    ∀ c : List String,
      links.foldl
        (fun c link =>
          if slugOfAlbumUrl link = some slug then jsSetInsert c link else c) c =
      (links.filter fun l => decide (slugOfAlbumUrl l = some slug)).foldl
        jsSetInsert c := by
  induction links with
  | nil => intro c; rfl
  | cons a t ih =>
      intro c
      by_cases ha : slugOfAlbumUrl a = some slug
      · simp only [List.foldl_cons, List.filter_cons, ha, decide_eq_true_eq,
          if_true, if_pos]
        exact ih _
      · have ha' : (decide (slugOfAlbumUrl a = some slug)) = false := by
          simpa using ha
        simp only [List.foldl_cons, List.filter_cons, if_neg ha, ha',
          Bool.false_eq_true, if_false]
        exact ih c

theorem aliasLoop_ambiguous (slug : String)
    (searchLinks : String → Option (List String))
    (h : ∀ q links, searchLinks q = some links →
      (jsSetOfList
        (links.filter fun l => decide (slugOfAlbumUrl l = some slug))).length = 0 ∨
      2 ≤ (jsSetOfList
        (links.filter fun l => decide (slugOfAlbumUrl l = some slug))).length) :
    ∀ qs : List String,
      aliasLoop slug searchLinks qs [] = some [] ∨
        aliasLoop slug searchLinks qs [] = none := by
  intro qs
  induction qs with
  | nil => exact Or.inl rfl
  | cons q qs ih =>
      unfold aliasLoop
      rcases hsq : searchLinks q with _ | links
      · exact ih
      · have hfold2 :
            links.foldl
              (fun c link =>
                if slugOfAlbumUrl link = some slug then jsSetInsert c link else c)
              [] =
            jsSetOfList
              (links.filter fun l => decide (slugOfAlbumUrl l = some slug)) :=
          aliasFold_eq slug links []
        dsimp only
        rw [hfold2]
        rcases h q links hsq with h0 | h2
        · have hnil :
              (jsSetOfList
                (links.filter fun l => decide (slugOfAlbumUrl l = some slug))) =
                [] :=
            List.length_eq_zero.mp h0
          rw [hnil]
          simpa using ih
        · rw [if_pos (by omega)]
          exact Or.inr rfl

/-- **C7.**  If every Bandcamp search response the alias fallback could
consult contains either zero or at least two distinct album links whose
item slug equals the record's slug, then `findBandcampAliasAlbumUrl`
yields no substitution: no candidate URL is returned (hence no URL
rewrite can be proposed). -/
theorem c7_alias_ambiguity_rejected (url : String)
    (searchLinks : String → Option (List String))
    (h : ∀ q links, searchLinks q = some links →
      (jsSetOfList
        (links.filter fun l =>
          decide (slugOfAlbumUrl l = slugOfAlbumUrl url))).length = 0 ∨
      2 ≤ (jsSetOfList
        (links.filter fun l =>
          decide (slugOfAlbumUrl l = slugOfAlbumUrl url))).length) :
    findBandcampAliasAlbumUrl url searchLinks = none := by
  unfold findBandcampAliasAlbumUrl
  rcases hh : hostnameOf url with _ | host
  · simp [hh]
  · rcases hs : slugOfAlbumUrl url with _ | slug
    · simp [hh, hs]
    · rw [hs] at h
      have hloop := aliasLoop_ambiguous slug searchLinks h (aliasQueries host slug)
      simp only [hh, hs]
      rcases hloop with h0 | h0
      · rw [h0]
        simp
      · rw [h0]

/-- The ambiguous search oracle of the witness: every query returns two
distinct album links with the record's slug. -/
def searchW : String → Option (List String) :=
  fun _ => some
    ["https://a.bandcamp.com/album/song", "https://b.bandcamp.com/album/song"]

/-- **C7 (witness).** -/
theorem c7_witness :
    findBandcampAliasAlbumUrl "https://artist.bandcamp.com/album/song" searchW =
      none :=
  c7_alias_ambiguity_rejected "https://artist.bandcamp.com/album/song" searchW
    (fun _ links hq => by cases hq; decide)

/-! ## C8: ambiguity reason vs absence-of-evidence reason -/

/-- A record used in the ambiguity-reason scenarios. -/
def rowC8 : Row :=
  ⟨10, "https://artist.bandcamp.com/album/gone", "T", none, some "active", none,
    none⟩

/-- A context with no consensus data. -/
def ctxC8 : InspectContext := ⟨true, true, true, 20, 1, fun _ => none, fun _ => none⟩

/-- A live 200 page whose type-marker strategy found the two conflicting
candidate ids 3 and 5. -/
def orcC8Ambig : RowOracles :=
  { live := ⟨true, some 200, some "https://artist.bandcamp.com/album/gone",
      some ⟨[3, 5], [], []⟩, none⟩
    snapshot := none
    archiveFetch := ⟨false, none, none, none, some "x"⟩
    searchLinks := fun _ => none
    aliasFetch := ⟨false, none, none, none, some "x"⟩ }

/-- A live 200 page with no evidence at all. -/
def orcC8Empty : RowOracles :=
  { live := ⟨true, some 200, some "https://artist.bandcamp.com/album/gone",
      some ⟨[], [], []⟩, none⟩
    snapshot := none
    archiveFetch := ⟨false, none, none, none, some "x"⟩
    searchLinks := fun _ => none
    aliasFetch := ⟨false, none, none, none, some "x"⟩ }

/-- **C8 (counterexample).**  In the accelerated fixer, a page with two
conflicting candidate ids and a page with no evidence at all receive the
SAME unresolved reason `unresolved_status_200`: the accelerated pipeline
has no ambiguity-specific reason code, contrary to the claim. -/
theorem c8_counterexample :
    (inspectRow rowC8 ctxC8 orcC8Ambig).mapped = none ∧
      (inspectRow rowC8 ctxC8 orcC8Ambig).reason =
        some "unresolved_status_200" ∧
      (inspectRow rowC8 ctxC8 orcC8Empty).reason =
        some "unresolved_status_200" ∧
      (inspectRow rowC8 ctxC8 orcC8Ambig).reason =
        (inspectRow rowC8 ctxC8 orcC8Empty).reason := by
  refine ⟨?_, ?_, ?_, ?_⟩ <;> decide

/-- **C8 (amended).**  The exact fixer's `inspectListing` does carry a
specific ambiguity reason: conflicting matched ids yield
`ambiguous_exact_matches`, an empty match set yields
`no_exact_legitimate_match` or `http_status_N`, and the ambiguity reason
differs from both absence reasons.  (The accelerated fixer's
`inspectRow` reports only the HTTP status or fetch error, with no
ambiguity-specific code.) -/
theorem c8_exact_ambiguity_reason :
    (∀ (urlId : Int) (status : Int) (detected : List String)
        (targetMap : String → Option (Int × String)),
      2 ≤ (jsSetOfList
        ((detected.filterMap fun d => (targetMap d).map fun t => (d, t)).map
          (·.2.1))).length →
      (inspectListingDecision urlId status detected targetMap).reason =
        some "ambiguous_exact_matches") ∧
    (∀ (urlId : Int) (status : Int) (detected : List String)
        (targetMap : String → Option (Int × String)),
      (detected.filterMap fun d => (targetMap d).map fun t => (d, t)) = [] →
      (inspectListingDecision urlId status detected targetMap).reason =
          some "no_exact_legitimate_match" ∨
        (inspectListingDecision urlId status detected targetMap).reason =
          some ("http_status_" ++ toString status)) ∧
    (∀ status : Int,
      ("ambiguous_exact_matches" : String) ≠ "no_exact_legitimate_match" ∧
        ("ambiguous_exact_matches" : String) ≠
          "http_status_" ++ toString status) := by
  refine ⟨?_, ?_, ?_⟩
  · intro urlId status detected targetMap h2
    have hlen :
        ¬ (jsSetOfList
          ((detected.filterMap fun d => (targetMap d).map fun t => (d, t)).map
            (·.2.1))).length = 1 := by omega
    have hmne :
        (detected.filterMap fun d => (targetMap d).map fun t => (d, t)) ≠ [] := by
      intro hnil
      rw [hnil] at h2
      simp [jsSetOfList] at h2
    have hdne : detected ≠ [] := by
      intro hnil
      apply hmne
      rw [hnil]
      rfl
    unfold inspectListingDecision
    dsimp only
    rw [if_neg hlen]
    simp only [Option.some.injEq]
    rw [if_neg, if_neg]
    · intro hz
      exact hmne (List.length_eq_zero.mp hz)
    · intro hz
      exact hdne (List.length_eq_zero.mp hz.1)
  · intro urlId status detected targetMap hm
    unfold inspectListingDecision
    dsimp only
    rw [hm]
    rw [if_neg (by simp [jsSetOfList])]
    by_cases hd : detected.length = 0 ∧ status ≥ 400
    · right
      rw [if_pos hd]
    · left
      rw [if_neg hd]
      simp
  · intro status
    constructor
    · decide
    · intro h
      have hd := congrArg String.data h
      rw [String.data_append] at hd
      have hh := congrArg List.head? hd
      rw [show "http_status_".data = 'h' :: "ttp_status_".data from rfl] at hh
      simp only [List.cons_append, List.head?_cons] at hh
      exact absurd hh (by decide)

/-- **C8 (witness).** -/
theorem c8_witness :
    (inspectListingDecision 1 200 ["https://creativecommons.org/licenses/by/4.0/",
        "https://creativecommons.org/licenses/by-sa/4.0/"]
      (fun d =>
        if d = "https://creativecommons.org/licenses/by/4.0/" then some (1, "by")
        else if d = "https://creativecommons.org/licenses/by-sa/4.0/" then
          some (2, "by-sa")
        else none)).reason = some "ambiguous_exact_matches" :=
  c8_exact_ambiguity_reason.1 1 200 _ _ (by decide)

/-! ## C2: archive-sourced decisions on dead records -/

theorem isPrefixOf_append_self {α : Type} [DecidableEq α] (l t : List α) :
    l.isPrefixOf (l ++ t) = true := by
  induction l with
  | nil => simp [List.isPrefixOf]
  | cons a l ih => simp [List.isPrefixOf, ih]

theorem strStartsWith_append_self (p s : String) :
    strStartsWith (p ++ s) p = true := by
  unfold strStartsWith
  rw [String.data_append]
  exact isPrefixOf_append_self p.data s.data

theorem wayback_append_ne_empty (s : String) : ("wayback_" ++ s) ≠ "" := by
  intro h
  have hd := congrArg String.data h
  rw [String.data_append] at hd
  rw [show "wayback_".data = 'w' :: "ayback_".data from rfl] at hd
  simp at hd

theorem wayback_not_search_alias (s : String) :
    strStartsWith ("wayback_" ++ s) "search_alias_" = false := by
  unfold strStartsWith
  rw [String.data_append]
  rw [show "search_alias_".data = 's' :: "earch_alias_".data from rfl]
  rw [show "wayback_".data = 'w' :: "ayback_".data from rfl]
  rw [List.cons_append]
  simp [List.isPrefixOf]

/-- The record of the end-to-end 404-with-archive scenario. -/
def rowC2 : Row :=
  ⟨11, "https://artist.bandcamp.com/album/gone", "T", none, some "active", none,
    none⟩

/-- Context for the 404-with-archive scenario. -/
def ctxC2 : InspectContext := ⟨true, true, true, 20, 1, fun _ => none, fun _ => none⟩

/-- Oracles of the scenario: live 404 with no evidence, a Wayback
snapshot whose page evidence decides id 4 by the type marker. -/
def orcC2 : RowOracles :=
  { live := ⟨true, some 404, some "https://artist.bandcamp.com/album/gone",
      some ⟨[], [], []⟩, none⟩
    snapshot := some "https://web.archive.org/web/2020/gone"
    archiveFetch := ⟨true, some 200, some "https://web.archive.org/web/2020/gone",
      some ⟨[4], [], []⟩, none⟩
    searchLinks := fun _ => none
    aliasFetch := ⟨false, none, none, none, some "x"⟩ }

/-- **C2 (counterexample).**  In the 404-with-archive scenario the
merged record does end dead with license 4, but its `health_reason` is
the dead marker `http_404`, which does not start with the archive
provenance tag `wayback_` (the `wayback_license_type` provenance lives
only in the report outcome's `mapped.source`) — refuting the claim that
`health_reason` starts with the archive-sourced provenance tag. -/
theorem c2_counterexample :
    (applyOutcome "TS" rowC2 (some (inspectRow rowC2 ctxC2 orcC2))).status =
        some "dead" ∧
      (applyOutcome "TS" rowC2 (some (inspectRow rowC2 ctxC2 orcC2))).license =
        some 4 ∧
      (applyOutcome "TS" rowC2
          (some (inspectRow rowC2 ctxC2 orcC2))).health_reason =
        some "http_404" ∧
      (inspectRow rowC2 ctxC2 orcC2).mapped =
        some ⟨4, none, "wayback_license_type"⟩ ∧
      strStartsWith "http_404" "wayback_" = false := by
  refine ⟨?_, ?_, ?_, ?_, ?_⟩ <;> decide

/-- **C2 (amended).**  When the live fetch returns 404 with no usable
evidence, archive fallback is enabled, a snapshot exists and its
evidence decides an id, the outcome's provenance is the archive-sourced
`wayback_`-prefixed source, and the merged record ends with
`status = dead`, `license` = the decided id, and
`health_reason = "http_404"` (not the provenance tag). -/
theorem c2_wayback_decision_merge (ts : String) (row : Row)
    (ctx : InspectContext) (orc : RowOracles) (p₂ : PageEvidence)
    (m : MappedDecision) (snap : String)
    (h1 : orc.live.ok = true) (h2 : orc.live.status = some 404)
    (h3 : ∀ p, orc.live.text = some p → decideMappedId p = none)
    (h4 : ctx.useArchive = true)
    (h5 : orc.snapshot = some snap)
    (h6 : orc.archiveFetch.ok = true)
    (h7 : orc.archiveFetch.text = some p₂)
    (h8 : decideMappedId p₂ = some m) :
    (inspectRow row ctx orc).mapped =
        some ⟨m.bcId, ctx.licenseById m.bcId, "wayback_" ++ m.source⟩ ∧
      (applyOutcome ts row (some (inspectRow row ctx orc))).status =
        some "dead" ∧
      (applyOutcome ts row (some (inspectRow row ctx orc))).license =
        some m.bcId ∧
      (applyOutcome ts row (some (inspectRow row ctx orc))).health_reason =
        some "http_404" := by
  have ho : inspectRow row ctx orc =
      mappedOutcomeOf ctx row orc.live orc.archiveFetch.status (some snap)
        none "wayback_" m := by
    obtain ⟨live, osnap, afetch, slinks, aliasf⟩ := orc
    obtain ⟨ok, st, fu, tx, er⟩ := live
    simp only at h1 h2 h3 h5 h6 h7 ⊢
    subst h1
    subst h2
    subst h5
    obtain ⟨aok, ast, afu, atx, aer⟩ := afetch
    simp only at h6 h7 ⊢
    subst h6
    subst h7
    rcases tx with _ | p
    · simp [inspectRow, h4, h8]
    · simp [inspectRow, h4, h8, h3 p rfl]
  rw [ho]
  have hsrc :
      effectiveSource
        ⟨m.bcId, ctx.licenseById m.bcId, "wayback_" ++ m.source⟩ =
      "wayback_" ++ m.source := by
    unfold effectiveSource
    rw [if_neg (wayback_append_ne_empty m.source)]
  refine ⟨rfl, ?_, ?_, ?_⟩ <;>
    simp [applyOutcome, mappedOutcomeOf, hsrc, wayback_not_search_alias,
      strStartsWith_append_self]

/-- **C2 (witness).** -/
theorem c2_witness :
    (inspectRow rowC2 ctxC2 orcC2).mapped =
        some ⟨(4 : Int), ctxC2.licenseById 4, "wayback_" ++ "license_type"⟩ ∧
      (applyOutcome "TS" rowC2 (some (inspectRow rowC2 ctxC2 orcC2))).status =
        some "dead" ∧
      (applyOutcome "TS" rowC2 (some (inspectRow rowC2 ctxC2 orcC2))).license =
        some (4 : Int) ∧
      (applyOutcome "TS" rowC2
          (some (inspectRow rowC2 ctxC2 orcC2))).health_reason =
        some "http_404" :=
  c2_wayback_decision_merge "TS" rowC2 ctxC2 orcC2 ⟨[4], [], []⟩
    ⟨4, "license_type"⟩ "https://web.archive.org/web/2020/gone"
    rfl rfl (fun p hp => by cases hp; decide) rfl rfl rfl rfl (by decide)

/-! ## C4: replay equivalence of the Report Reconciler -/

theorem reconcileApply_url_id (ts : String) (row : Row) (r : Outcome) :
    (reconcileApply ts row r).url_id = row.url_id := by
  obtain ⟨uid, uurl, title, lic, st, hca, hre⟩ := row
  rcases hm : r.mapped with _ | mp
  · simp only [reconcileApply, hm]
    split_ifs <;> rfl
  · simp only [reconcileApply, hm]
    rcases ha : r.alias_url with _ | aurl <;>
      · dsimp only
        split_ifs <;> rfl

/-- The reconciler's per-result update and the live merge's per-row
update agree: the equality guards before the license and URL writes do
not change the resulting record. -/
theorem reconcileApply_eq_applyOutcome (ts : String) (row : Row) (r : Outcome) :
    reconcileApply ts row r = applyOutcome ts row (some r) := by
  obtain ⟨uid, uurl, title, lic, st, hca, hre⟩ := row
  rcases hm : r.mapped with _ | mp
  · simp only [reconcileApply, applyOutcome, hm]
  · simp only [reconcileApply, applyOutcome, hm]
    rcases ha : r.alias_url with _ | aurl <;>
      · dsimp only
        by_cases hlic : lic = some mp.bc_id <;>
          split_ifs <;> simp_all [Row.mk.injEq]

theorem lastIdxWithId_none_iff (urls : List Row) (id : Int) :
    lastIdxWithId urls id = none ↔ ∀ row ∈ urls, row.url_id ≠ id := by
  induction urls with
  | nil => simp [lastIdxWithId]
  | cons a t ih =>
      simp only [lastIdxWithId]
      rcases ht : lastIdxWithId t id with _ | j
      · dsimp only
        constructor
        · intro h row hrow
          rcases List.mem_cons.mp hrow with rfl | hrow'
          · by_cases hha : row.url_id = id
            · rw [if_pos hha] at h
              exact absurd h (by simp)
            · exact hha
          · exact (ih.mp ht) row hrow'
        · intro h
          rw [if_neg (h a (List.mem_cons_self a t))]
      · dsimp only
        constructor
        · intro h
          exact absurd h (by simp)
        · intro h
          have hnone : lastIdxWithId t id = none :=
            ih.mpr (fun row hrow => h row (List.mem_cons_of_mem a hrow))
          rw [hnone] at ht
          exact absurd ht (by simp)

theorem map_id_of_no_match (t : List Row) (id : Int) (f : Row → Row)
    (h : ∀ row ∈ t, row.url_id ≠ id) :
    (t.map fun row => if row.url_id = id then f row else row) = t := by
  conv_rhs => rw [← List.map_id t]
  apply List.map_congr_left
  intro row hrow
  rw [if_neg (h row hrow)]
  rfl

theorem lastIdxWithId_some_mem {urls : List Row} {id : Int} {j : Nat}
    (h : lastIdxWithId urls id = some j) : ∃ row ∈ urls, row.url_id = id := by
  induction urls generalizing j with
  | nil => simp [lastIdxWithId] at h
  | cons a t ih =>
      simp only [lastIdxWithId] at h
      rcases ht : lastIdxWithId t id with _ | j'
      · rw [ht] at h
        dsimp only at h
        split at h
        · exact ⟨a, List.mem_cons_self a t, by assumption⟩
        · exact absurd h (by simp)
      · rw [ht] at h
        obtain ⟨row, hrow, hid⟩ := ih ht
        exact ⟨row, List.mem_cons_of_mem a hrow, hid⟩

/-- With pairwise-distinct record ids, the reconciler's "mutate the row
the id map holds" update equals a pointwise map over the record list. -/
theorem reconcileResult_eq_map (ts : String) (r : Outcome) :
    ∀ urls : List Row, (urls.map Row.url_id).Nodup →
      reconcileResult ts urls r =
        urls.map fun row =>
          if row.url_id = r.url_id then reconcileApply ts row r else row := by
  intro urls
  induction urls with
  | nil => intro _; rfl
  | cons a t ih =>
      intro hnd
      rw [List.map_cons, List.nodup_cons] at hnd
      obtain ⟨ha, ht⟩ := hnd
      unfold reconcileResult lastIdxWithId
      rcases hlast : lastIdxWithId t r.url_id with _ | j
      · by_cases hid : a.url_id = r.url_id
        · rw [if_pos hid]
          simp only [List.set_cons_zero, List.getD_cons_zero, List.map_cons,
            if_pos hid]
          rw [map_id_of_no_match t r.url_id _
            ((lastIdxWithId_none_iff t r.url_id).mp hlast)]
        · rw [if_neg hid]
          simp only [List.map_cons, if_neg hid]
          rw [map_id_of_no_match t r.url_id _
            ((lastIdxWithId_none_iff t r.url_id).mp hlast)]
      · have hid : a.url_id ≠ r.url_id := by
          obtain ⟨row, hrow, hrid⟩ := lastIdxWithId_some_mem hlast
          intro hcontra
          apply ha
          rw [hcontra, ← hrid]
          exact List.mem_map_of_mem Row.url_id hrow
        simp only [List.set_cons_succ, List.getD_cons_succ, List.map_cons,
          if_neg hid]
        have hmap := ih ht
        unfold reconcileResult at hmap
        rw [hlast] at hmap
        dsimp only at hmap
        rw [hmap]

theorem resultById_foldl_init (results : List Outcome) (id : Int) :
    ∀ init : Option Outcome,
      results.foldl (fun acc r => if r.url_id = id then some r else acc) init =
        match resultById results id with
        | some y => some y
        | none => init := by
  induction results with
  | nil => intro init; rfl
  | cons r rs ih =>
      intro init
      simp only [List.foldl_cons]
      rw [ih]
      have hcons : resultById (r :: rs) id =
          match resultById rs id with
          | some y => some y
          | none => if r.url_id = id then some r else none := by
        show rs.foldl (fun acc x => if x.url_id = id then some x else acc)
            (if r.url_id = id then some r else none) = _
        rw [ih]
      rw [hcons]
      rcases resultById rs id with _ | y
      · dsimp only
        by_cases hrid : r.url_id = id
        · simp [hrid]
        · simp [hrid]
      · rfl

theorem resultById_cons (r : Outcome) (rs : List Outcome) (id : Int) :
    resultById (r :: rs) id =
      match resultById rs id with
      | some y => some y
      | none => if r.url_id = id then some r else none := by
  unfold resultById
  simp only [List.foldl_cons]
  exact resultById_foldl_init rs id _

theorem resultById_eq_none (rs : List Outcome) (id : Int)
    (h : ∀ x ∈ rs, x.url_id ≠ id) : resultById rs id = none := by
  induction rs with
  | nil => rfl
  | cons r rs ih =>
      rw [resultById_cons]
      rw [ih (fun x hx => h x (List.mem_cons_of_mem r hx))]
      rw [if_neg (h r (List.mem_cons_self r rs))]

theorem applyOutcomes_url_id_map (ts : String) (urls : List Row)
    (results : List Outcome) :
    (applyOutcomes ts urls results).map Row.url_id = urls.map Row.url_id := by
  unfold applyOutcomes
  rw [List.map_map]
  apply List.map_congr_left
  intro row _
  exact applyOutcome_url_id ts row (resultById results row.url_id)

/-- One report replayed by the reconciler equals that report merged by
the live merge, given pairwise-distinct record ids and
pairwise-distinct outcome ids. -/
theorem reconcile_report_eq_applyOutcomes (ts : String) :
    ∀ (results : List Outcome) (urls : List Row),
      (urls.map Row.url_id).Nodup → (results.map Outcome.url_id).Nodup →
      results.foldl (reconcileResult ts) urls = applyOutcomes ts urls results := by
  intro results
  induction results with
  | nil =>
      intro urls hu _
      unfold applyOutcomes
      simp only [List.foldl_nil]
      conv_lhs => rw [← List.map_id urls]
      apply List.map_congr_left
      intro row _
      rfl
  | cons r rs ih =>
      intro urls hu hr
      rw [List.map_cons, List.nodup_cons] at hr
      obtain ⟨hrnotin, hrs⟩ := hr
      simp only [List.foldl_cons]
      rw [reconcileResult_eq_map ts r urls hu]
      have hu' : ((urls.map fun row =>
          if row.url_id = r.url_id then reconcileApply ts row r else row).map
            Row.url_id).Nodup := by
        rw [List.map_map]
        have : (Row.url_id ∘ fun row =>
            if row.url_id = r.url_id then reconcileApply ts row r else row) =
            Row.url_id := by
          funext row
          simp only [Function.comp]
          split_ifs with h
          · rw [reconcileApply_url_id]
          · rfl
        rw [this]
        exact hu
      rw [ih _ hu' hrs]
      unfold applyOutcomes
      rw [List.map_map]
      apply List.map_congr_left
      intro row _
      simp only [Function.comp]
      by_cases hid : row.url_id = r.url_id
      · rw [if_pos hid]
        rw [reconcileApply_url_id, hid]
        rw [resultById_eq_none rs r.url_id (by
          intro x hx
          intro hcontra
          apply hrnotin
          rw [← hcontra]
          exact List.mem_map_of_mem Outcome.url_id hx)]
        rw [resultById_cons]
        rw [resultById_eq_none rs r.url_id (by
          intro x hx
          intro hcontra
          apply hrnotin
          rw [← hcontra]
          exact List.mem_map_of_mem Outcome.url_id hx)]
        rw [if_pos rfl]
        dsimp only
        have hnone : applyOutcome ts (reconcileApply ts row r) none =
            reconcileApply ts row r := rfl
        rw [hnone]
        exact reconcileApply_eq_applyOutcome ts row r
      · rw [if_neg hid]
        rw [resultById_cons]
        rcases hby : resultById rs row.url_id with _ | y
        · rw [if_neg (fun hcontra => hid hcontra.symm)]
        · rfl

/-- **C4.**  Replaying the timestamp-ordered report history with the
Report Reconciler produces the same final record set as the live
sequential merges that produced those reports, given the dataset
invariant that record ids are pairwise distinct and that each report
carries at most one outcome per record id. -/
theorem c4_replay_equivalence :
    ∀ (reports : List Report) (urls : List Row),
      (urls.map Row.url_id).Nodup →
      (∀ rep ∈ reports, (rep.results.map Outcome.url_id).Nodup) →
      replayReports urls reports = liveMerges urls reports := by
  intro reports
  induction reports with
  | nil => intro urls _ _; rfl
  | cons rep reps ih =>
      intro urls hu hr
      unfold replayReports liveMerges
      simp only [List.foldl_cons]
      rw [reconcile_report_eq_applyOutcomes rep.generated_at rep.results urls hu
        (hr rep (List.mem_cons_self rep reps))]
      have hu' : ((applyOutcomes rep.generated_at urls rep.results).map
          Row.url_id).Nodup := by
        rw [applyOutcomes_url_id_map]
        exact hu
      have := ih (applyOutcomes rep.generated_at urls rep.results) hu'
        (fun r hrr => hr r (List.mem_cons_of_mem rep hrr))
      unfold replayReports liveMerges at this
      exact this

/-- The two-record starting set of the replay-equivalence witness. -/
def urlsC4 : List Row :=
  [⟨1, "https://a/x", "A", none, some "active", none, none⟩,
   ⟨2, "https://b/y", "B", some 3, some "active", none, none⟩]

/-- Two reports: the first maps record 1 and leaves record 2 unverified,
the second marks record 1 dead via a 404. -/
def reportsC4 : List Report :=
  [⟨"2024-01-01T00:00:00.000Z",
    [⟨1, "https://a/x", "A", some 200, some "https://a/x", none, none, none,
       some ⟨4, some "by", "license_type"⟩, none⟩,
     ⟨2, "https://b/y", "B", some 503, some "https://b/y", none, none, none,
       none, some "unresolved_status_503"⟩]⟩,
   ⟨"2024-02-01T00:00:00.000Z",
    [⟨1, "https://a/x", "A", some 404, some "https://a/x", none, none, none,
       none, some "unresolved_status_404"⟩]⟩]

/-- **C4 (witness).** -/
theorem c4_witness :
    replayReports urlsC4 reportsC4 = liveMerges urlsC4 reportsC4 :=
  c4_replay_equivalence reportsC4 urlsC4 (by decide) (by decide)

end CcBc
